import Mathlib

/-!
Verification development for the qatar-reg-scan compliance pipeline.

The definitions below are shallow embeddings of the TypeScript source:
- preprocess-chunks (supabase/functions/preprocess-chunks/index.ts):
  text cleaning and fixed-window chunking;
- score-compliance (supabase/functions/score-compliance/index.ts):
  weighted scoring over classified requirements;
- the semantic-match function (src/unnamed/part_000): cosine similarity,
  best-match selection per requirement, and status classification.

Modelling conventions:
- strings of document text are `List Char`; identifiers are `String`;
- JS numbers in the scoring engine are `Rat` (the engine only adds,
  multiplies and divides small decimals, all exact in binary64 up to the
  final division, whose rounding is modelled by `jsRound`);
- JS numbers in the similarity engine are `Real` (the source takes square
  roots); a possibly-NaN number is `Option Real` with `none` modelling NaN
  (in this code a zero denominator forces a zero numerator, so division by
  zero always yields NaN, never an infinity - see `dotList_eq_zero_left`
  and `dotList_eq_zero_right` below);
- the JS comparison `x > y`, which is false whenever either side is NaN,
  is `jsGtOpt` / `jsGtConst`.
-/

namespace QatarRegScan

/-! ### Chunker: supabase/functions/preprocess-chunks/index.ts -/

/-- Character class of the JS regex `\s` (also the set used by
`String.prototype.trim`): tab, LF, VT, FF, CR, space, NBSP, and the
Unicode space separators, line/paragraph separators and BOM. -/
def isJsWhitespace (c : Char) : Bool :=
  decide (c.toNat = 9) || decide (c.toNat = 10) || decide (c.toNat = 11) ||
  decide (c.toNat = 12) || decide (c.toNat = 13) || decide (c.toNat = 32) ||
  decide (c.toNat = 160) || decide (c.toNat = 5760) ||
  (decide (8192 ≤ c.toNat) && decide (c.toNat ≤ 8202)) ||
  decide (c.toNat = 8232) || decide (c.toNat = 8233) || decide (c.toNat = 8239) ||
  decide (c.toNat = 8287) || decide (c.toNat = 12288) || decide (c.toNat = 65279)

/-- Character class of the JS regex `\n`. -/
def isNewlineChar (c : Char) : Bool :=
  decide (c = '\n')

/-- The effect of `text.replace(/p+/g, r)` for a character class `p`:
every maximal run of characters satisfying `p` is replaced by the single
replacement character `r`. The run is consumed left to right; the
replacement is emitted once, when the run ends. -/
def collapseRuns (p : Char → Bool) (r : Char) : List Char → List Char
  | [] => []
  | [c] => if p c then [r] else [c]
  | c :: d :: rest =>
    if p c && p d then collapseRuns p r (d :: rest)
    else (if p c then r else c) :: collapseRuns p r (d :: rest)

/-- The effect of `String.prototype.trim`: leading and trailing whitespace
removed. -/
def trimChars (l : List Char) : List Char :=
  (l.dropWhile isJsWhitespace).rdropWhile isJsWhitespace

/-- The cleaning step of preprocess-chunks:
`raw_text.replace(/\s+/g, " ").replace(/\n+/g, "\n").trim()`. -/
def cleanText (l : List Char) : List Char :=
  trimChars (collapseRuns isNewlineChar '\n' (collapseRuns isJsWhitespace ' ' l))

/-- The `Chunk` record of preprocess-chunks. -/
structure Chunk where
  id : String
  text : List Char
  start_char : Nat
  end_char : Nat
  document_type : String
deriving DecidableEq, Repr

/-- The chunking loop of preprocess-chunks: while `startPos` is inside the
text, emit the span `[startPos, min (startPos + 500) text.length)` and
advance `startPos` by `chunkSize - overlap = 400`. The JS
`substring(startPos, endPos)` is `(text.drop startPos).take (endPos - startPos)`. -/
def chunksFrom (dt : String) (text : List Char) (startPos chunkId : Nat) : List Chunk :=
  if h : startPos < text.length then
    { id := dt ++ "_chunk_" ++ toString chunkId,
      text := (text.drop startPos).take (min (startPos + 500) text.length - startPos),
      start_char := startPos,
      end_char := min (startPos + 500) text.length,
      document_type := dt } :: chunksFrom dt text (startPos + 400) (chunkId + 1)
  else []
termination_by text.length - startPos
decreasing_by omega

/-- The whole preprocess-chunks body: clean, then chunk from position 0
with the first chunk id 0. -/
def preprocessChunks (dt : String) (raw : List Char) : List Chunk :=
  chunksFrom dt (cleanText raw) 0 0

/-! ### Scoring engine: supabase/functions/score-compliance/index.ts -/

/-- The three compliance statuses. The JS strings are "compliant",
"partial" and "missing"; `partial` is a Lean keyword, so the middle
constructor is named `partialMatch`. -/
inductive Status where
  | compliant
  | partialMatch
  | missing
deriving DecidableEq, Repr

/-- The fixed `CRITICAL_REQUIREMENTS` array of score-compliance. -/
def CRITICAL_REQUIREMENTS : List String :=
  ["minimum_capital_psp", "minimum_capital_p2p", "minimum_capital_wealth",
   "data_residency", "aml_policy"]

/-- The fields of a semantic match that score-compliance reads
(`match.requirement_id` and `match.status`); the remaining fields are
spread through unchanged and do not affect the computation. -/
structure SemanticMatchIn where
  requirement_id : String
  status : Status
deriving DecidableEq, Repr

/-- One element of the `scoredRequirements` array. -/
structure ScoredRequirement where
  requirement_id : String
  status : Status
  points : Rat
  weight : Rat
  weighted_points : Rat
  is_critical : Bool
deriving DecidableEq, Repr

/-- Points per status: compliant 100, partial 50, otherwise 0. -/
def pointsFor : Status → Rat
  | .compliant => 100
  | .partialMatch => 50
  | .missing => 0

/-- The body of the `map` callback in score-compliance. -/
def scoreOne (m : SemanticMatchIn) : ScoredRequirement :=
  let isCritical := CRITICAL_REQUIREMENTS.contains m.requirement_id
  let weight : Rat := if isCritical then 2 else 1
  let points := pointsFor m.status
  { requirement_id := m.requirement_id,
    status := m.status,
    points := points,
    weight := weight,
    weighted_points := points * weight,
    is_critical := isCritical }

/-- JS `Math.round`: round half toward positive infinity. -/
def jsRound (q : Rat) : Int :=
  ⌊q + 1 / 2⌋

/-- The status-count summary of score-compliance. The JS keys are
compliant, partial, missing, total; `partialCount` stands for the JS
`partial` key. -/
structure Summary where
  compliant : Nat
  partialCount : Nat
  missing : Nat
  total : Nat
deriving DecidableEq, Repr

/-- The response record of score-compliance. `overall_score` is
`Math.round((totalScore / maxScore) * 100)`; when `maxScore = 0` the JS
division is 0/0 = NaN (the accumulated `totalScore` is then also 0, see
`scoreCompliance_total_eq_zero_of_max_eq_zero`), and `Math.round(NaN)` is
NaN, modelled as `none`. -/
structure ScoreResult where
  overall_score : Option Int
  total_score : Rat
  max_score : Rat
  requirements : List ScoredRequirement
  summary : Summary
deriving DecidableEq, Repr

/-- The whole score-compliance body over the parsed `semantic_matches`. -/
def scoreCompliance (ms : List SemanticMatchIn) : ScoreResult :=
  let scored := ms.map scoreOne
  let totalScore := (scored.map (fun r => r.weighted_points)).sum
  let maxScore := (scored.map (fun r => 100 * r.weight)).sum
  { overall_score :=
      if maxScore = 0 then none else some (jsRound (totalScore / maxScore * 100)),
    total_score := totalScore,
    max_score := maxScore,
    requirements := scored,
    summary :=
      { compliant := (scored.filter (fun r => decide (r.status = Status.compliant))).length,
        partialCount := (scored.filter (fun r => decide (r.status = Status.partialMatch))).length,
        missing := (scored.filter (fun r => decide (r.status = Status.missing))).length,
        total := scored.length } }

/-! ### Similarity engine and status classifier: src/unnamed/part_000 -/

/-- The dot-product accumulator of `cosineSimilarity`:
`for i < a.length, dotProduct += a[i] * b[i]` (the source is called with
equal-length 384-dimensional embeddings). -/
def dotList (a b : List Real) : Real :=
  (List.zipWith (fun x y => x * y) a b).sum

/-- The squared-norm accumulator of `cosineSimilarity`:
`normA += a[i] * a[i]` over the whole vector. -/
def normSq (a : List Real) : Real :=
  (a.map (fun x => x * x)).sum

open Classical in
/-- The `cosineSimilarity` function of part_000:
`dotProduct / (Math.sqrt(normA) * Math.sqrt(normB))`, with no guard for a
zero denominator. When the denominator is 0 the numerator is necessarily
also 0 (`dotList_eq_zero_left`, `dotList_eq_zero_right`), so the JS value
is 0/0 = NaN, modelled as `none`. -/
noncomputable def cosineSimilarity (a b : List Real) : Option Real :=
  if Real.sqrt (normSq a) * Real.sqrt (normSq b) = 0 then none
  else some (dotList a b / (Real.sqrt (normSq a) * Real.sqrt (normSq b)))

/-- The JS comparison `x > y` on possibly-NaN numbers: false whenever
either side is NaN. -/
def jsGtOpt (a b : Option Real) : Prop :=
  match a, b with
  | some x, some y => y < x
  | _, _ => False

/-- The JS comparison `x > t` for a NaN-free threshold `t`. -/
def jsGtConst (a : Option Real) (t : Real) : Prop :=
  match a with
  | some x => t < x
  | none => False

/-- The chunk fields that part_000 reads: `chunks[j].id` and
`chunks[j].text`. -/
structure ChunkIn where
  id : String
  text : List Char
deriving DecidableEq, Repr

/-- The mutable `bestMatch` object of the inner loop:
`{ chunkId: "", score: 0, text: "" }`, where `score` is later assigned a
computed (possibly NaN) similarity. -/
structure BestState where
  chunkId : String
  score : Option Real
  text : List Char

open Classical in
/-- One iteration of the inner loop over chunks: replace the running best
exactly when `similarity > bestMatch.score`; the stored text is
`chunks[j].text.substring(0, 200)`. -/
noncomputable def bestStep (reqEmb : List Real) (best : BestState)
    (cj : ChunkIn × List Real) : BestState :=
  if jsGtOpt (cosineSimilarity reqEmb cj.2) best.score then
    { chunkId := cj.1.id,
      score := cosineSimilarity reqEmb cj.2,
      text := cj.1.text.take 200 }
  else best

/-- The inner loop over all chunk/embedding pairs (the source walks two
parallel arrays `chunks` and `chunkEmbeddings` of equal length, here
zipped into one list of pairs). -/
noncomputable def bestMatchFold (reqEmb : List Real)
    (pairs : List (ChunkIn × List Real)) : BestState :=
  pairs.foldl (bestStep reqEmb) { chunkId := "", score := some 0, text := [] }

open Classical in
/-- The status determination of part_000 on a best score and the
rule-match flag: missing by default, compliant above 0.7, partial above
0.4, and the rule-match boost promotes partial (only) to compliant. -/
noncomputable def classify (score : Option Real) (hasRuleMatch : Bool) : Status :=
  let base :=
    if jsGtConst score 0.7 then Status.compliant
    else if jsGtConst score 0.4 then Status.partialMatch
    else Status.missing
  if hasRuleMatch = true ∧ base = Status.partialMatch then Status.compliant else base

/-- The rule-match test of part_000:
`rule_matches.some(rm => rm.requirement_ids.includes(reqId))`; each rule
match is represented by its `requirement_ids` list. -/
def hasRuleMatchFor (ruleMatches : List (List String)) (reqId : String) : Bool :=
  ruleMatches.any (fun ids => ids.contains reqId)

/-- The emitted record of part_000 for one requirement. -/
structure SemanticMatchRec where
  requirement_id : String
  chunk_id : String
  similarity_score : Option Real
  matched_text : List Char
  status : Status

/-- The body of the requirement loop of part_000 for one requirement. -/
noncomputable def semanticMatchFor (reqId : String) (reqEmb : List Real)
    (pairs : List (ChunkIn × List Real)) (ruleMatches : List (List String)) :
    SemanticMatchRec :=
  let best := bestMatchFold reqEmb pairs
  { requirement_id := reqId,
    chunk_id := best.chunkId,
    similarity_score := best.score,
    matched_text := best.text,
    status := classify best.score (hasRuleMatchFor ruleMatches reqId) }

/-- The full requirement loop of part_000: one record per requirement, in
requirement order (the source walks the parallel arrays `requirementIds`
and `requirementEmbeddings`, here zipped into one list of pairs). -/
noncomputable def semanticMatches (reqs : List (String × List Real))
    (pairs : List (ChunkIn × List Real)) (ruleMatches : List (List String)) :
    List SemanticMatchRec :=
  reqs.map (fun r => semanticMatchFor r.1 r.2 pairs ruleMatches)

/-! ### Helper lemmas: the cleaning step -/

lemma collapseRuns_cons_neg (p : Char → Bool) (r c : Char) (t : List Char)
    (hc : p c = false) : collapseRuns p r (c :: t) = c :: collapseRuns p r t := by
  cases t with
  | nil => simp [collapseRuns, hc]
  | cons d t' => simp [collapseRuns, hc]

lemma collapseRuns_mem {p : Char → Bool} {r : Char} :
    ∀ {l : List Char} {x : Char}, x ∈ collapseRuns p r l →
      x = r ∨ (p x = false ∧ x ∈ l) := by
  intro l
  induction l with
  | nil => intro x hx; simp [collapseRuns] at hx
  | cons c t ih =>
    intro x hx
    cases t with
    | nil =>
      cases hc : p c
      · simp [collapseRuns, hc] at hx
        exact Or.inr ⟨hx ▸ hc, by simp [hx]⟩
      · simp [collapseRuns, hc] at hx
        exact Or.inl hx
    | cons d t' =>
      cases hc : p c
      · rw [collapseRuns_cons_neg p r c _ hc] at hx
        rcases List.mem_cons.mp hx with h | h
        · exact Or.inr ⟨h ▸ hc, by simp [h]⟩
        · rcases ih h with h' | ⟨h1, h2⟩
          · exact Or.inl h'
          · exact Or.inr ⟨h1, List.mem_cons_of_mem c h2⟩
      · cases hd : p d
        · have hrw : collapseRuns p r (c :: d :: t') = r :: collapseRuns p r (d :: t') := by
            simp [collapseRuns, hc, hd]
          rw [hrw] at hx
          rcases List.mem_cons.mp hx with h | h
          · exact Or.inl h
          · rcases ih h with h' | ⟨h1, h2⟩
            · exact Or.inl h'
            · exact Or.inr ⟨h1, List.mem_cons_of_mem c h2⟩
        · have hrw : collapseRuns p r (c :: d :: t') = collapseRuns p r (d :: t') := by
            simp [collapseRuns, hc, hd]
          rw [hrw] at hx
          rcases ih hx with h' | ⟨h1, h2⟩
          · exact Or.inl h'
          · exact Or.inr ⟨h1, List.mem_cons_of_mem c h2⟩

lemma collapseRuns_chain' (p : Char → Bool) (r : Char) (l : List Char) :
    (collapseRuns p r l).Chain' (fun a b => p a = false ∨ p b = false) := by
  induction l with
  | nil => simp [collapseRuns]
  | cons c t ih =>
    cases hc : p c
    · rw [collapseRuns_cons_neg p r c t hc]
      exact ih.cons' (fun y _ => Or.inl hc)
    · cases t with
      | nil => simp [collapseRuns, hc]
      | cons d t' =>
        cases hd : p d
        · have hrw : collapseRuns p r (c :: d :: t') = r :: collapseRuns p r (d :: t') := by
            simp [collapseRuns, hc, hd]
          rw [hrw]
          apply ih.cons'
          intro y hy
          rw [collapseRuns_cons_neg p r d t' hd] at hy
          simp only [List.head?_cons, Option.mem_def, Option.some.injEq] at hy
          exact Or.inr (hy ▸ hd)
        · have hrw : collapseRuns p r (c :: d :: t') = collapseRuns p r (d :: t') := by
            simp [collapseRuns, hc, hd]
          rw [hrw]
          exact ih

lemma collapseRuns_fixpoint (p : Char → Bool) (r : Char) :
    ∀ l : List Char, (∀ x ∈ l, p x = true → x = r) →
      l.Chain' (fun a b => p a = false ∨ p b = false) →
      collapseRuns p r l = l := by
  intro l
  induction l with
  | nil => intro _ _; rfl
  | cons c t ih =>
    intro hall hch
    cases t with
    | nil =>
      cases hc : p c
      · simp [collapseRuns, hc]
      · have := hall c (by simp) hc
        simp [collapseRuns, hc, this]
    | cons d t' =>
      have hrec := ih (fun x hx hpx => hall x (List.mem_cons_of_mem c hx) hpx) hch.tail
      have hcd : p c = false ∨ p d = false := hch.rel_head
      cases hc : p c
      · rw [collapseRuns_cons_neg p r c _ hc, hrec]
      · have hd : p d = false := hcd.resolve_left (by simp [hc])
        have hcr : c = r := hall c (by simp) hc
        have hrw : collapseRuns p r (c :: d :: t') = r :: collapseRuns p r (d :: t') := by
          simp [collapseRuns, hc, hd]
        rw [hrw, hrec, hcr]

lemma collapseRuns_all_neg (p : Char → Bool) (r : Char) :
    ∀ l : List Char, (∀ x ∈ l, p x = false) → collapseRuns p r l = l := by
  intro l
  induction l with
  | nil => intro _; rfl
  | cons c t ih =>
    intro hall
    rw [collapseRuns_cons_neg p r c t (hall c (by simp)),
      ih (fun x hx => hall x (List.mem_cons_of_mem c hx))]

lemma trimChars_subset {l : List Char} {x : Char} (hx : x ∈ trimChars l) : x ∈ l := by
  have hp := List.rdropWhile_prefix isJsWhitespace (l.dropWhile isJsWhitespace)
  have h1 : x ∈ l.dropWhile isJsWhitespace := hp.sublist.mem hx
  exact ((List.dropWhile_suffix isJsWhitespace).sublist).mem h1

lemma trimChars_chain' {R : Char → Char → Prop} {l : List Char} (h : l.Chain' R) :
    (trimChars l).Chain' R := by
  have h1 : (l.dropWhile isJsWhitespace).Chain' R :=
    h.suffix (List.dropWhile_suffix isJsWhitespace)
  exact List.Chain'.prefix h1
    ( List.rdropWhile_prefix isJsWhitespace (l.dropWhile isJsWhitespace))

lemma trimChars_rdropWhile_self (l : List Char) :
    (trimChars l).rdropWhile isJsWhitespace = trimChars l := by
  rw [trimChars]
  exact List.rdropWhile_idempotent isJsWhitespace (l.dropWhile isJsWhitespace)

lemma trimChars_dropWhile_self (l : List Char) :
    (trimChars l).dropWhile isJsWhitespace = trimChars l := by
  rw [List.dropWhile_eq_self_iff]
  intro hl
  have hw : trimChars l = (l.dropWhile isJsWhitespace).rdropWhile isJsWhitespace := rfl
  obtain ⟨s, hs⟩ := List.rdropWhile_prefix isJsWhitespace (l.dropWhile isJsWhitespace)
  rw [← hw] at hs
  have h0 : 0 < (l.dropWhile isJsWhitespace).length := by
    rw [← hs, List.length_append]
    omega
  have hnot := List.dropWhile_get_zero_not isJsWhitespace l h0
  have hsome : (l.dropWhile isJsWhitespace)[0]? =
      some ((l.dropWhile isJsWhitespace).get ⟨0, h0⟩) := by
    rw [List.get_eq_getElem]
    exact List.getElem?_eq_getElem h0
  have hsame : (trimChars l)[0]? = (l.dropWhile isJsWhitespace)[0]? := by
    conv_rhs => rw [← hs]
    rw [List.getElem?_append, if_pos hl]
  have hsome' : (trimChars l)[0]? = some ((trimChars l).get ⟨0, hl⟩) := by
    rw [List.get_eq_getElem]
    exact List.getElem?_eq_getElem hl
  have : (trimChars l).get ⟨0, hl⟩ = (l.dropWhile isJsWhitespace).get ⟨0, h0⟩ := by
    have := hsome' ▸ (hsame.trans hsome)
    exact Option.some.inj this
  rw [this]
  exact hnot

lemma isNewlineChar_ws {c : Char} (h : isNewlineChar c = true) :
    isJsWhitespace c = true := by
  have : c = '\n' := of_decide_eq_true h
  subst this
  decide

lemma collapseWs_no_newline (l : List Char) :
    ∀ x ∈ collapseRuns isJsWhitespace ' ' l, isNewlineChar x = false := by
  intro x hx
  rcases collapseRuns_mem hx with h | ⟨h1, _⟩
  · subst h; decide
  · cases hnl : isNewlineChar x
    · rfl
    · rw [isNewlineChar_ws hnl] at h1
      exact absurd h1 (by simp)

/-- The second replace of the cleaning step, `replace(/\n+/g, "\n")`, is a
no-op: after the first replace no newline remains. -/
lemma cleanText_eq_trim_collapse (l : List Char) :
    cleanText l = trimChars (collapseRuns isJsWhitespace ' ' l) := by
  rw [cleanText,
    collapseRuns_all_neg isNewlineChar '\n' _ (collapseWs_no_newline l)]

lemma cleanText_ws_is_space (l : List Char) :
    ∀ x ∈ cleanText l, isJsWhitespace x = true → x = ' ' := by
  intro x hx hws
  rw [cleanText_eq_trim_collapse] at hx
  rcases collapseRuns_mem (trimChars_subset hx) with h | ⟨h1, _⟩
  · exact h
  · rw [hws] at h1; exact absurd h1 (by simp)

lemma cleanText_no_newline (l : List Char) :
    ∀ x ∈ cleanText l, isNewlineChar x = false := by
  intro x hx
  rw [cleanText_eq_trim_collapse] at hx
  exact collapseWs_no_newline l x (trimChars_subset hx)

lemma cleanText_chain' (l : List Char) :
    (cleanText l).Chain' (fun a b => isJsWhitespace a = false ∨ isJsWhitespace b = false) := by
  rw [cleanText_eq_trim_collapse]
  exact trimChars_chain' (collapseRuns_chain' isJsWhitespace ' ' l)

lemma cleanText_dropWhile_self (l : List Char) :
    (cleanText l).dropWhile isJsWhitespace = cleanText l := by
  rw [cleanText_eq_trim_collapse]
  exact trimChars_dropWhile_self _

lemma cleanText_rdropWhile_self (l : List Char) :
    (cleanText l).rdropWhile isJsWhitespace = cleanText l := by
  rw [cleanText_eq_trim_collapse]
  exact trimChars_rdropWhile_self _

/-- Cleaning is idempotent: on an already-cleaned text each replace and
the trim are the identity. -/
lemma cleanText_idem (l : List Char) : cleanText (cleanText l) = cleanText l := by
  have h1 : collapseRuns isJsWhitespace ' ' (cleanText l) = cleanText l :=
    collapseRuns_fixpoint isJsWhitespace ' ' (cleanText l)
      (cleanText_ws_is_space l) (cleanText_chain' l)
  have h2 : collapseRuns isNewlineChar '\n' (cleanText l) = cleanText l :=
    collapseRuns_all_neg isNewlineChar '\n' (cleanText l) (cleanText_no_newline l)
  have h3 : trimChars (cleanText l) = cleanText l := by
    rw [trimChars, cleanText_dropWhile_self, cleanText_rdropWhile_self]
  rw [cleanText, h1, h2, h3]

/-! ### Helper lemmas: the chunking loop -/

/-- The chunk emitted by one iteration of the chunking loop at position
`s` with sequence index `i`. -/
def mkChunk (dt : String) (text : List Char) (s i : Nat) : Chunk :=
  { id := dt ++ "_chunk_" ++ toString i,
    text := (text.drop s).take (min (s + 500) text.length - s),
    start_char := s,
    end_char := min (s + 500) text.length,
    document_type := dt }

lemma chunksFrom_unfold (dt : String) (text : List Char) (p i : Nat) :
    chunksFrom dt text p i =
      if p < text.length then
        mkChunk dt text p i :: chunksFrom dt text (p + 400) (i + 1)
      else [] := by
  rw [chunksFrom]
  by_cases h : p < text.length <;> simp [h, mkChunk]

lemma chunksFrom_getElem? (dt : String) (text : List Char) :
    ∀ (k p i : Nat), (chunksFrom dt text p i)[k]? =
      if p + 400 * k < text.length then some (mkChunk dt text (p + 400 * k) (i + k))
      else none := by
  intro k
  induction k with
  | zero =>
    intro p i
    rw [chunksFrom_unfold]
    by_cases h : p < text.length <;> simp [h]
  | succ k ih =>
    intro p i
    rw [chunksFrom_unfold]
    by_cases h : p < text.length
    · simp only [h, if_true, List.getElem?_cons_succ]
      rw [ih (p + 400) (i + 1)]
      have h1 : p + 400 + 400 * k = p + 400 * (k + 1) := by ring
      have h2 : i + 1 + k = i + (k + 1) := by omega
      rw [h1, h2]
    · have h' : ¬(p + 400 * (k + 1) < text.length) := by omega
      simp [h, h']

lemma chunksFrom_length (dt : String) (text : List Char) (p i : Nat) :
    (chunksFrom dt text p i).length = (text.length - p + 399) / 400 := by
  have key : ∀ n p i, text.length - p ≤ n →
      (chunksFrom dt text p i).length = (text.length - p + 399) / 400 := by
    intro n
    induction n with
    | zero =>
      intro p i hn
      rw [chunksFrom_unfold]
      have h : ¬p < text.length := by omega
      simp only [h, if_false, List.length_nil]
      omega
    | succ n ihn =>
      intro p i hn
      rw [chunksFrom_unfold]
      by_cases h : p < text.length
      · simp only [h, if_true, List.length_cons]
        rw [ihn (p + 400) (i + 1) (by omega)]
        omega
      · simp only [h, if_false, List.length_nil]
        omega
  exact key text.length p i (by omega)

/-! ### Helper lemmas: the scoring engine -/

lemma scoreOne_weight (m : SemanticMatchIn) :
    (scoreOne m).weight = if m.requirement_id ∈ CRITICAL_REQUIREMENTS then 2 else 1 := by
  by_cases h : m.requirement_id ∈ CRITICAL_REQUIREMENTS <;> simp [scoreOne, h]

lemma scoreOne_weight_pos (m : SemanticMatchIn) : 0 < (scoreOne m).weight := by
  rw [scoreOne_weight]
  by_cases h : m.requirement_id ∈ CRITICAL_REQUIREMENTS <;> simp [h]

lemma scoreCompliance_max_eq_zero_iff (ms : List SemanticMatchIn) :
    (scoreCompliance ms).max_score = 0 ↔ ms = [] := by
  induction ms with
  | nil => simp [scoreCompliance]
  | cons m rest ih =>
    simp only [scoreCompliance, List.map_cons, List.sum_cons]
    constructor
    · intro h
      exfalso
      have h1 : 0 < 100 * (scoreOne m).weight := by
        have := scoreOne_weight_pos m
        positivity
      have h2 : 0 ≤ ((rest.map scoreOne).map (fun r => 100 * r.weight)).sum := by
        apply List.sum_nonneg
        intro x hx
        simp only [List.map_map, List.mem_map, Function.comp] at hx
        obtain ⟨r, _, rfl⟩ := hx
        have := scoreOne_weight_pos r
        positivity
      linarith
    · intro h
      exact absurd h (List.cons_ne_nil m rest)

lemma scoreCompliance_total_eq_zero_of_max_eq_zero (ms : List SemanticMatchIn)
    (h : (scoreCompliance ms).max_score = 0) : (scoreCompliance ms).total_score = 0 := by
  have : ms = [] := (scoreCompliance_max_eq_zero_iff ms).mp h
  subst this
  rfl

/-! ### Helper lemmas: cosine similarity and best-match selection -/

lemma normSq_nonneg (a : List Real) : 0 ≤ normSq a := by
  apply List.sum_nonneg
  intro x hx
  simp only [normSq, List.mem_map] at hx
  obtain ⟨y, _, rfl⟩ := hx
  exact mul_self_nonneg y

lemma normSq_eq_zero_entries {a : List Real} (h : normSq a = 0) : ∀ x ∈ a, x = 0 := by
  induction a with
  | nil => intro x hx; simp at hx
  | cons y t ih =>
    intro x hx
    have hy : 0 ≤ y * y := mul_self_nonneg y
    have ht : 0 ≤ normSq t := normSq_nonneg t
    have hsum : y * y + normSq t = 0 := by
      simpa [normSq] using h
    have hy0 : y * y = 0 := by linarith
    have ht0 : normSq t = 0 := by linarith
    rcases List.mem_cons.mp hx with rfl | hx'
    · exact mul_self_eq_zero.mp hy0
    · exact ih ht0 x hx'

lemma dotList_eq_zero_of_entries_left :
    ∀ (a b : List Real), (∀ x ∈ a, x = 0) → dotList a b = 0 := by
  intro a
  induction a with
  | nil => intro b _; simp [dotList]
  | cons x t ih =>
    intro b hz
    cases b with
    | nil => simp [dotList]
    | cons y s =>
      have h1 := ih s (fun z hz' => hz z (List.mem_cons_of_mem x hz'))
      simp only [dotList, List.zipWith_cons_cons, List.sum_cons] at h1 ⊢
      rw [hz x (by simp), h1]
      ring

lemma dotList_eq_zero_of_entries_right :
    ∀ (a b : List Real), (∀ x ∈ b, x = 0) → dotList a b = 0 := by
  intro a
  induction a with
  | nil => intro b _; simp [dotList]
  | cons x t ih =>
    intro b hz
    cases b with
    | nil => simp [dotList]
    | cons y s =>
      have h1 := ih s (fun z hz' => hz z (List.mem_cons_of_mem y hz'))
      simp only [dotList, List.zipWith_cons_cons, List.sum_cons] at h1 ⊢
      rw [hz y (by simp), h1]
      ring

/-- When the left vector has zero norm, the dot product in
`cosineSimilarity` is also 0, so the undefined division is 0/0 (JS NaN),
never a nonzero/0 infinity. -/
lemma dotList_eq_zero_left {a : List Real} (b : List Real) (h : normSq a = 0) :
    dotList a b = 0 :=
  dotList_eq_zero_of_entries_left a b (normSq_eq_zero_entries h)

/-- When the right vector has zero norm, the dot product in
`cosineSimilarity` is also 0. -/
lemma dotList_eq_zero_right (a : List Real) {b : List Real} (h : normSq b = 0) :
    dotList a b = 0 :=
  dotList_eq_zero_of_entries_right a b (normSq_eq_zero_entries h)

lemma cosineSimilarity_none_left {a : List Real} (b : List Real) (h : normSq a = 0) :
    cosineSimilarity a b = none := by
  rw [cosineSimilarity, if_pos]
  rw [h, Real.sqrt_zero, zero_mul]

lemma cosineSimilarity_none_right (a : List Real) {b : List Real} (h : normSq b = 0) :
    cosineSimilarity a b = none := by
  rw [cosineSimilarity, if_pos]
  rw [h, Real.sqrt_zero, mul_zero]

lemma jsGtOpt_some_some {x y : Real} : jsGtOpt (some x) (some y) ↔ y < x := Iff.rfl

lemma not_jsGtOpt_none_left (b : Option Real) : ¬jsGtOpt none b := fun h => h

/-- The running best keeps a non-NaN score: the initial score is the
number 0 and an update requires the strict comparison to succeed, which a
NaN similarity never does. -/
lemma foldl_best_isSome (reqEmb : List Real) :
    ∀ (pairs : List (ChunkIn × List Real)) (init : BestState),
      (∃ x, init.score = some x) →
      ∃ x, (pairs.foldl (bestStep reqEmb) init).score = some x := by
  intro pairs
  induction pairs with
  | nil => intro init h; exact h
  | cons cj rest ih =>
    intro init h
    rw [List.foldl_cons]
    apply ih
    by_cases h' : jsGtOpt (cosineSimilarity reqEmb cj.2) init.score
    · cases hsim : cosineSimilarity reqEmb cj.2 with
      | none => rw [hsim] at h'; exact absurd h' (not_jsGtOpt_none_left _)
      | some x =>
        refine ⟨x, ?_⟩
        unfold bestStep
        rw [if_pos h']
        simp [hsim]
    · unfold bestStep
      rw [if_neg h']
      exact h

/-- If no chunk's similarity strictly exceeds the running score, the fold
leaves the state unchanged. -/
lemma foldl_best_no_improve (reqEmb : List Real) :
    ∀ (pairs : List (ChunkIn × List Real)) (init : BestState) (x0 : Real),
      init.score = some x0 →
      (∀ cj ∈ pairs, ∀ y, cosineSimilarity reqEmb cj.2 = some y → y ≤ x0) →
      pairs.foldl (bestStep reqEmb) init = init := by
  intro pairs
  induction pairs with
  | nil => intro init x0 _ _; rfl
  | cons cj rest ih =>
    intro init x0 hs hall
    rw [List.foldl_cons]
    have hstep : bestStep reqEmb init cj = init := by
      unfold bestStep
      rw [if_neg]
      intro h'
      cases hsim : cosineSimilarity reqEmb cj.2 with
      | none => rw [hsim] at h'; exact not_jsGtOpt_none_left _ h'
      | some y =>
        rw [hsim, hs] at h'
        have hy := hall cj (by simp) y hsim
        exact absurd (jsGtOpt_some_some.mp h') (not_lt.mpr hy)
    rw [hstep]
    exact ih init x0 hs (fun c hc y hy => hall c (List.mem_cons_of_mem cj hc) y hy)

/-- The fold selects the first chunk attaining the strict maximum of the
similarities, as soon as that maximum strictly exceeds the initial score. -/
lemma foldl_best_first_max (reqEmb : List Real) :
    ∀ (pairs : List (ChunkIn × List Real)) (i : Nat) (c : ChunkIn × List Real)
      (x : Real) (init : BestState) (x0 : Real),
      init.score = some x0 → x0 < x →
      pairs[i]? = some c →
      cosineSimilarity reqEmb c.2 = some x →
      (∀ cj ∈ pairs, ∀ y, cosineSimilarity reqEmb cj.2 = some y → y ≤ x) →
      (∀ j, j < i → ∀ c' y, pairs[j]? = some c' →
        cosineSimilarity reqEmb c'.2 = some y → y < x) →
      pairs.foldl (bestStep reqEmb) init =
        { chunkId := c.1.id, score := some x, text := c.1.text.take 200 } := by
  intro pairs
  induction pairs with
  | nil =>
    intro i c x init x0 _ _ hi
    simp at hi
  | cons cj rest ih =>
    intro i c x init x0 hs hlt hi hcx hall hfirst
    rw [List.foldl_cons]
    cases i with
    | zero =>
      rw [List.getElem?_cons_zero] at hi
      injection hi with hi
      subst hi
      have hstep : bestStep reqEmb init cj =
          { chunkId := cj.1.id, score := some x, text := cj.1.text.take 200 } := by
        unfold bestStep
        rw [hcx, hs, if_pos (jsGtOpt_some_some.mpr hlt)]
      rw [hstep]
      exact foldl_best_no_improve reqEmb rest _ x rfl
        (fun c' hc' y hy => hall c' (List.mem_cons_of_mem cj hc') y hy)
    | succ i' =>
      rw [List.getElem?_cons_succ] at hi
      have hall' : ∀ cj' ∈ rest, ∀ y, cosineSimilarity reqEmb cj'.2 = some y → y ≤ x :=
        fun c' hc' y hy => hall c' (List.mem_cons_of_mem cj hc') y hy
      have hfirst' : ∀ j, j < i' → ∀ c' y, rest[j]? = some c' →
          cosineSimilarity reqEmb c'.2 = some y → y < x := by
        intro j hj c' y hj' hy'
        exact hfirst (j + 1) (by omega) c' y
          (by rw [List.getElem?_cons_succ]; exact hj') hy'
      cases hsim : cosineSimilarity reqEmb cj.2 with
      | none =>
        have hstep : bestStep reqEmb init cj = init := by
          unfold bestStep
          rw [hsim, if_neg (not_jsGtOpt_none_left _)]
        rw [hstep]
        exact ih i' c x init x0 hs hlt hi hcx hall' hfirst'
      | some y =>
        have hy_lt : y < x :=
          hfirst 0 (Nat.succ_pos i') cj y (by rw [List.getElem?_cons_zero]) hsim
        by_cases himp : x0 < y
        · have hstep : bestStep reqEmb init cj =
              { chunkId := cj.1.id, score := some y, text := cj.1.text.take 200 } := by
            unfold bestStep
            rw [hsim, hs, if_pos (jsGtOpt_some_some.mpr himp)]
          rw [hstep]
          exact ih i' c x _ y rfl hy_lt hi hcx hall' hfirst'
        · have hstep : bestStep reqEmb init cj = init := by
            unfold bestStep
            rw [hsim, hs, if_neg]
            exact fun h => himp (jsGtOpt_some_some.mp h)
          rw [hstep]
          exact ih i' c x init x0 hs hlt hi hcx hall' hfirst'

/-! ### Helper lemmas: the status classification -/

lemma classify_some (s : Real) (b : Bool) :
    classify (some s) b =
      if 0.7 < s then Status.compliant
      else if 0.4 < s then (if b then Status.compliant else Status.partialMatch)
      else Status.missing := by
  unfold classify
  by_cases h7 : (0.7 : Real) < s
  · simp [jsGtConst, h7]
  · by_cases h4 : (0.4 : Real) < s
    · cases b <;> simp [jsGtConst, h7, h4]
    · cases b <;> simp [jsGtConst, h7, h4]

lemma classify_zero (b : Bool) : classify (some 0) b = Status.missing := by
  rw [classify_some, if_neg (by norm_num), if_neg (by norm_num)]

lemma scoreCompliance_requirements (ms : List SemanticMatchIn) :
    (scoreCompliance ms).requirements = ms.map scoreOne := rfl

lemma scoreCompliance_total (ms : List SemanticMatchIn) :
    (scoreCompliance ms).total_score =
      ((ms.map scoreOne).map (fun r => r.weighted_points)).sum := rfl

lemma scoreCompliance_max (ms : List SemanticMatchIn) :
    (scoreCompliance ms).max_score =
      ((ms.map scoreOne).map (fun r => 100 * r.weight)).sum := rfl

lemma scoreCompliance_overall (ms : List SemanticMatchIn) :
    (scoreCompliance ms).overall_score =
      if (scoreCompliance ms).max_score = 0 then none
      else some (jsRound ((scoreCompliance ms).total_score /
        (scoreCompliance ms).max_score * 100)) := rfl

/-! ### Claims -/

/-- C2 counterexample: on the empty requirement sequence the Scoring
Engine does not fail; it returns a complete result record whose
overall_score is the NaN produced by the division 0/0 (modelled `none`). -/
theorem c2_counterexample :
    scoreCompliance [] =
      { overall_score := none, total_score := 0, max_score := 0, requirements := [],
        summary := { compliant := 0, partialCount := 0, missing := 0, total := 0 } } := by
  decide

/-- C2 (amended): there is no EmptyInput failure path. On the empty
sequence (the only way to get max_score = 0) the engine still performs
the division, yielding a NaN overall_score modelled as `none`, and
returns a result record with total_score 0, max_score 0, no requirements
and zero counts. -/
theorem c2_theorem (ms : List SemanticMatchIn) :
    ((scoreCompliance ms).overall_score = none ↔ ms = []) ∧
    (scoreCompliance []).total_score = 0 ∧
    (scoreCompliance []).max_score = 0 ∧
    (scoreCompliance []).requirements = [] ∧
    (scoreCompliance []).summary.total = 0 := by
  refine ⟨?_, by decide, by decide, by decide, by decide⟩
  rw [scoreCompliance_overall]
  by_cases h : (scoreCompliance ms).max_score = 0
  · rw [if_pos h]
    simp only [true_iff]
    exact (scoreCompliance_max_eq_zero_iff ms).mp h
  · rw [if_neg h]
    simp only [reduceCtorEq, false_iff]
    intro hms
    exact h ((scoreCompliance_max_eq_zero_iff ms).mpr hms)

/-- C3 counterexample: a requirement with id primary_data_environment is
scored with weight 1, not the weight 2 the critical list of the claim
would give it; the code's CRITICAL_REQUIREMENTS list does not contain
primary_data_environment. -/
theorem c3_counterexample :
    ((scoreCompliance
        [{ requirement_id := "primary_data_environment", status := Status.compliant }]
      ).requirements.map (fun r => r.weight)) = [1] ∧
    ¬((1 : Rat) = 2) ∧
    ¬("primary_data_environment" ∈ CRITICAL_REQUIREMENTS) := by
  refine ⟨by decide, by norm_num, by decide⟩

/-- C3 (amended): a scored requirement receives weight 2 exactly when its
id is on the code's critical list, which is the five ids
minimum_capital_psp, minimum_capital_p2p, minimum_capital_wealth,
data_residency and aml_policy; every other id, in particular
primary_data_environment, receives weight 1. -/
theorem c3_theorem (ms : List SemanticMatchIn) (r : ScoredRequirement)
    (hr : r ∈ (scoreCompliance ms).requirements) :
    (r.weight = 2 ↔ r.requirement_id ∈
      ["minimum_capital_psp", "minimum_capital_p2p", "minimum_capital_wealth",
       "data_residency", "aml_policy"]) ∧
    (r.weight = 2 ∨ r.weight = 1) ∧
    (r.requirement_id = "primary_data_environment" → r.weight = 1) := by
  rw [scoreCompliance_requirements] at hr
  obtain ⟨m, _, rfl⟩ := List.mem_map.mp hr
  have hid : (scoreOne m).requirement_id = m.requirement_id := rfl
  have hcrit : CRITICAL_REQUIREMENTS =
      ["minimum_capital_psp", "minimum_capital_p2p", "minimum_capital_wealth",
       "data_residency", "aml_policy"] := rfl
  refine ⟨?_, ?_, ?_⟩
  · rw [hid, ← hcrit, scoreOne_weight]
    by_cases h : m.requirement_id ∈ CRITICAL_REQUIREMENTS
    · simp [h]
    · simp only [h, if_false]
      norm_num [h]
  · rw [scoreOne_weight]
    by_cases h : m.requirement_id ∈ CRITICAL_REQUIREMENTS
    · exact Or.inl (by simp [h])
    · exact Or.inr (by simp [h])
  · intro hpde
    rw [hid] at hpde
    have h : ¬m.requirement_id ∈ CRITICAL_REQUIREMENTS := by
      rw [hpde]; decide
    rw [scoreOne_weight, if_neg h]

/-- C3 witness: the amended statement instantiated at a singleton input
with the aml_policy requirement. -/
theorem c3_witness :
    ((scoreOne { requirement_id := "aml_policy", status := Status.missing }).weight = 2 ↔
      (scoreOne { requirement_id := "aml_policy", status := Status.missing }).requirement_id ∈
      ["minimum_capital_psp", "minimum_capital_p2p", "minimum_capital_wealth",
       "data_residency", "aml_policy"]) ∧
    ((scoreOne { requirement_id := "aml_policy", status := Status.missing }).weight = 2 ∨
      (scoreOne { requirement_id := "aml_policy", status := Status.missing }).weight = 1) ∧
    ((scoreOne { requirement_id := "aml_policy", status := Status.missing }).requirement_id =
        "primary_data_environment" →
      (scoreOne { requirement_id := "aml_policy", status := Status.missing }).weight = 1) :=
  c3_theorem [{ requirement_id := "aml_policy", status := Status.missing }]
    (scoreOne { requirement_id := "aml_policy", status := Status.missing })
    (by rw [scoreCompliance_requirements]; exact List.mem_singleton.mpr rfl)

/-- C4: the Status Classifier is compliant strictly above 0.7; strictly
between 0.4 and 0.7 inclusive it is partial without lexical evidence and
compliant with it; at or below 0.4 it is missing regardless of lexical
evidence. The thresholds are strict: 0.70 gives partial, 0.40 gives
missing, and 0.39 with lexical evidence still gives missing. -/
theorem c4_theorem (s : Real) (b : Bool) :
    (0.7 < s → classify (some s) b = Status.compliant) ∧
    (0.4 < s → s ≤ 0.7 → b = false → classify (some s) b = Status.partialMatch) ∧
    (0.4 < s → s ≤ 0.7 → b = true → classify (some s) b = Status.compliant) ∧
    (s ≤ 0.4 → classify (some s) b = Status.missing) ∧
    classify (some 0.70) false = Status.partialMatch ∧
    classify (some 0.40) false = Status.missing ∧
    classify (some 0.39) true = Status.missing := by
  refine ⟨?_, ?_, ?_, ?_, ?_, ?_, ?_⟩
  · intro h7
    rw [classify_some, if_pos h7]
  · intro h4 h7 hb
    subst hb
    rw [classify_some, if_neg (not_lt.mpr h7), if_pos h4]
    simp
  · intro h4 h7 hb
    subst hb
    rw [classify_some, if_neg (not_lt.mpr h7), if_pos h4]
    simp
  · intro h4
    rw [classify_some, if_neg (by linarith), if_neg (not_lt.mpr h4)]
  · rw [classify_some, if_neg (by norm_num), if_pos (by norm_num)]
    simp
  · rw [classify_some, if_neg (by norm_num), if_neg (by norm_num)]
  · rw [classify_some, if_neg (by norm_num), if_neg (by norm_num)]

/-- C4 witness: the first clause instantiated at similarity 1 with no
lexical evidence. -/
theorem c4_witness : classify (some 1) false = Status.compliant :=
  (c4_theorem 1 false).1 (by norm_num)

lemma scoreOne_weighted_points (m : SemanticMatchIn) :
    (scoreOne m).weighted_points =
      pointsFor m.status * (if m.requirement_id ∈ CRITICAL_REQUIREMENTS then 2 else 1) := by
  rw [show (scoreOne m).weighted_points = pointsFor m.status * (scoreOne m).weight from rfl,
    scoreOne_weight]

lemma scoreCompliance_example_total :
    (scoreCompliance [{ requirement_id := "data_residency", status := Status.compliant },
        { requirement_id := "kyc_documentation", status := Status.partialMatch }]
      ).total_score = 250 := by
  rw [scoreCompliance_total]
  simp only [List.map_cons, List.map_nil, List.sum_cons, List.sum_nil]
  rw [scoreOne_weighted_points, scoreOne_weighted_points]
  rw [if_pos (by decide : ("data_residency" : String) ∈ CRITICAL_REQUIREMENTS)]
  rw [if_neg (by decide : ¬("kyc_documentation" : String) ∈ CRITICAL_REQUIREMENTS)]
  norm_num [pointsFor]

lemma scoreCompliance_example_max :
    (scoreCompliance [{ requirement_id := "data_residency", status := Status.compliant },
        { requirement_id := "kyc_documentation", status := Status.partialMatch }]
      ).max_score = 300 := by
  rw [scoreCompliance_max]
  simp only [List.map_cons, List.map_nil, List.sum_cons, List.sum_nil]
  rw [scoreOne_weight, scoreOne_weight]
  rw [if_pos (by decide : ("data_residency" : String) ∈ CRITICAL_REQUIREMENTS)]
  rw [if_neg (by decide : ¬("kyc_documentation" : String) ∈ CRITICAL_REQUIREMENTS)]
  norm_num

lemma scoreCompliance_example_overall :
    (scoreCompliance [{ requirement_id := "data_residency", status := Status.compliant },
        { requirement_id := "kyc_documentation", status := Status.partialMatch }]
      ).overall_score = some 83 := by
  rw [scoreCompliance_overall, scoreCompliance_example_total, scoreCompliance_example_max]
  rw [if_neg (by norm_num : ¬(300 : Rat) = 0)]
  rw [jsRound]
  norm_num

/-- C5: points are 100/50/0 per status, weighted_points is points times
weight, total_score and max_score are the corresponding sums, and
overall_score is round(100 * total / max); on one critical compliant
requirement and one standard partial requirement the totals are 250, 300
and the overall score is 83. -/
theorem c5_theorem (ms : List SemanticMatchIn) (h : ms ≠ []) :
    (∀ r ∈ (scoreCompliance ms).requirements,
      (r.status = Status.compliant → r.points = 100) ∧
      (r.status = Status.partialMatch → r.points = 50) ∧
      (r.status = Status.missing → r.points = 0) ∧
      r.weighted_points = r.points * r.weight) ∧
    (scoreCompliance ms).total_score =
      (ms.map (fun m => pointsFor m.status *
        (if m.requirement_id ∈ CRITICAL_REQUIREMENTS then 2 else 1))).sum ∧
    (scoreCompliance ms).max_score =
      (ms.map (fun m =>
        100 * (if m.requirement_id ∈ CRITICAL_REQUIREMENTS then 2 else 1))).sum ∧
    (scoreCompliance ms).overall_score =
      some (jsRound (100 * (scoreCompliance ms).total_score /
        (scoreCompliance ms).max_score)) ∧
    (scoreCompliance [{ requirement_id := "data_residency", status := Status.compliant },
        { requirement_id := "kyc_documentation", status := Status.partialMatch }]
      ).total_score = 250 ∧
    (scoreCompliance [{ requirement_id := "data_residency", status := Status.compliant },
        { requirement_id := "kyc_documentation", status := Status.partialMatch }]
      ).max_score = 300 ∧
    (scoreCompliance [{ requirement_id := "data_residency", status := Status.compliant },
        { requirement_id := "kyc_documentation", status := Status.partialMatch }]
      ).overall_score = some 83 := by
  refine ⟨?_, ?_, ?_, ?_, scoreCompliance_example_total, scoreCompliance_example_max,
    scoreCompliance_example_overall⟩
  · intro r hr
    rw [scoreCompliance_requirements] at hr
    obtain ⟨m, _, rfl⟩ := List.mem_map.mp hr
    have hst : (scoreOne m).status = m.status := rfl
    have hpt : (scoreOne m).points = pointsFor m.status := rfl
    refine ⟨?_, ?_, ?_, rfl⟩ <;> intro h' <;> rw [hst] at h' <;> rw [hpt, h'] <;> rfl
  · rw [scoreCompliance_total, List.map_map]
    refine congrArg List.sum ?_
    apply List.map_congr_left
    intro m _
    exact scoreOne_weighted_points m
  · rw [scoreCompliance_max, List.map_map]
    refine congrArg List.sum ?_
    apply List.map_congr_left
    intro m _
    show 100 * (scoreOne m).weight = _
    rw [scoreOne_weight]
  · have hmax : ¬(scoreCompliance ms).max_score = 0 := fun h0 =>
      h ((scoreCompliance_max_eq_zero_iff ms).mp h0)
    rw [scoreCompliance_overall, if_neg hmax]
    congr 1
    rw [mul_comm, mul_div_assoc]

/-- C5 witness: the theorem instantiated at the two-requirement example. -/
theorem c5_witness :
    (scoreCompliance [{ requirement_id := "data_residency", status := Status.compliant },
        { requirement_id := "kyc_documentation", status := Status.partialMatch }]
      ).total_score = 250 ∧
    (scoreCompliance [{ requirement_id := "data_residency", status := Status.compliant },
        { requirement_id := "kyc_documentation", status := Status.partialMatch }]
      ).max_score = 300 ∧
    (scoreCompliance [{ requirement_id := "data_residency", status := Status.compliant },
        { requirement_id := "kyc_documentation", status := Status.partialMatch }]
      ).overall_score = some 83 := by
  have h := c5_theorem [{ requirement_id := "data_residency", status := Status.compliant },
      { requirement_id := "kyc_documentation", status := Status.partialMatch }]
    (by decide)
  exact ⟨h.2.2.2.2.1, h.2.2.2.2.2.1, h.2.2.2.2.2.2⟩

/-- C6 counterexample: a cleaned text of length 450 (strictly between
0 and 500) yields two chunks, not one: the loop re-enters at position
400 < 450. -/
theorem c6_counterexample :
    0 < (List.replicate 450 'a').length ∧ (List.replicate 450 'a').length < 500 ∧
    (chunksFrom "doc" (List.replicate 450 'a') 0 0).length = 2 ∧
    ¬((chunksFrom "doc" (List.replicate 450 'a') 0 0).length = 1) := by
  have h2 : (chunksFrom "doc" (List.replicate 450 'a') 0 0).length = 2 := by
    rw [chunksFrom_length, List.length_replicate]
  exact ⟨by rw [List.length_replicate]; omega, by rw [List.length_replicate]; omega, h2,
    by rw [h2]; omega⟩

/-- C6 (amended): chunk k spans [400k, min(400k + 500, L)); consecutive
start positions differ by exactly 400; the spans cover [0, L) with no
gaps; the last chunk ends at L; the empty text yields no chunks; a text
with 0 < L <= 400 yields exactly one chunk spanning the whole text, while
400 < L < 500 yields two chunks. -/
theorem c6_theorem (dt : String) (text : List Char) :
    (∀ k c, (chunksFrom dt text 0 0)[k]? = some c →
      c.start_char = 400 * k ∧ c.end_char = min (400 * k + 500) text.length) ∧
    (∀ k c c', (chunksFrom dt text 0 0)[k]? = some c →
      (chunksFrom dt text 0 0)[k + 1]? = some c' →
      c'.start_char = c.start_char + 400) ∧
    (∀ j, j < text.length → ∃ c ∈ chunksFrom dt text 0 0,
      c.start_char ≤ j ∧ j < c.end_char) ∧
    (∀ h : chunksFrom dt text 0 0 ≠ [],
      ((chunksFrom dt text 0 0).getLast h).end_char = text.length) ∧
    (text.length = 0 → chunksFrom dt text 0 0 = []) ∧
    (0 < text.length → text.length ≤ 400 →
      chunksFrom dt text 0 0 =
        [{ id := dt ++ "_chunk_" ++ toString 0, text := text,
           start_char := 0, end_char := text.length, document_type := dt }]) ∧
    (400 < text.length → text.length < 500 →
      (chunksFrom dt text 0 0).length = 2) := by
  have hget : ∀ k, (chunksFrom dt text 0 0)[k]? =
      if 400 * k < text.length then some (mkChunk dt text (400 * k) k) else none := by
    intro k
    rw [chunksFrom_getElem? dt text k 0 0]
    simp only [Nat.zero_add]
  refine ⟨?_, ?_, ?_, ?_, ?_, ?_, ?_⟩
  · intro k c hkc
    rw [hget] at hkc
    by_cases h : 400 * k < text.length
    · rw [if_pos h] at hkc
      injection hkc with hkc
      subst hkc
      exact ⟨rfl, rfl⟩
    · rw [if_neg h] at hkc
      exact absurd hkc (by simp)
  · intro k c c' hkc hkc'
    rw [hget] at hkc hkc'
    by_cases h : 400 * k < text.length
    · by_cases h' : 400 * (k + 1) < text.length
      · rw [if_pos h] at hkc
        rw [if_pos h'] at hkc'
        injection hkc with hkc
        injection hkc' with hkc'
        subst hkc
        subst hkc'
        show 400 * (k + 1) = 400 * k + 400
        ring
      · rw [if_neg h'] at hkc'
        exact absurd hkc' (by simp)
    · rw [if_neg h] at hkc
      exact absurd hkc (by simp)
  · intro j hj
    have hk : 400 * (j / 400) < text.length := by omega
    have hsome := hget (j / 400)
    rw [if_pos hk] at hsome
    refine ⟨mkChunk dt text (400 * (j / 400)) (j / 400), List.getElem?_mem hsome, ?_, ?_⟩
    · show 400 * (j / 400) ≤ j
      omega
    · show j < min (400 * (j / 400) + 500) text.length
      omega
  · intro hne
    have hlen : 0 < (chunksFrom dt text 0 0).length := List.length_pos.mpr hne
    have hne2 : (chunksFrom dt text 0 0).length - 1 < (chunksFrom dt text 0 0).length := by
      omega
    have hval : (chunksFrom dt text 0 0)[(chunksFrom dt text 0 0).length - 1]? =
        some ((chunksFrom dt text 0 0).getLast hne) := by
      rw [List.getLast_eq_getElem]
      exact List.getElem?_eq_getElem hne2
    have hnone : (chunksFrom dt text 0 0)[(chunksFrom dt text 0 0).length]? = none :=
      List.getElem?_eq_none_iff.mpr (le_refl _)
    rw [hget] at hval hnone
    have hub : ¬400 * (chunksFrom dt text 0 0).length < text.length := by
      intro hcon
      rw [if_pos hcon] at hnone
      exact absurd hnone (by simp)
    by_cases hin : 400 * ((chunksFrom dt text 0 0).length - 1) < text.length
    · rw [if_pos hin] at hval
      have heq := Option.some.inj hval
      have : ((chunksFrom dt text 0 0).getLast hne).end_char =
          min (400 * ((chunksFrom dt text 0 0).length - 1) + 500) text.length := by
        rw [← heq]
        rfl
      rw [this]
      omega
    · rw [if_neg hin] at hval
      exact absurd hval.symm (by simp)
  · intro h0
    rw [chunksFrom_unfold]
    simp [h0]
  · intro hpos hle
    rw [chunksFrom_unfold, if_pos hpos, chunksFrom_unfold,
      if_neg (by omega : ¬0 + 400 < text.length)]
    have hmin : min (0 + 500) text.length = text.length := by omega
    have htext : (text.drop 0).take (min (0 + 500) text.length - 0) = text := by
      rw [hmin, List.drop_zero, Nat.sub_zero, List.take_length]
    rw [mkChunk, htext, hmin]
  · intro h1 h2
    rw [chunksFrom_length]
    omega

/-- C6 witness: coverage instantiated for the three-character text at
position 0. -/
theorem c6_witness :
    ∃ c ∈ chunksFrom "doc" ['a', 'b', 'c'] 0 0, c.start_char ≤ 0 ∧ 0 < c.end_char := by
  have h := c6_theorem "doc" ['a', 'b', 'c']
  exact h.2.2.1 0 (by decide)

/-- C7 counterexample: a run of two newlines between words is cleaned to
a single space, not to a single newline: the whitespace collapse runs
first and removes every newline before the newline collapse applies. -/
theorem c7_counterexample :
    cleanText ['a', '\n', '\n', 'b'] = ['a', ' ', 'b'] ∧
    ¬(cleanText ['a', '\n', '\n', 'b'] = ['a', '\n', 'b']) := by
  decide

/-- C7 (amended): the first replace collapses every whitespace run
(newline runs included) to one space, so the newline replace is a no-op
and the cleaned text never contains a newline; every whitespace character
of the output is a single space, no two adjacent, and the output carries
no leading or trailing whitespace. -/
theorem c7_theorem (l : List Char) :
    (∀ c ∈ cleanText l, isJsWhitespace c = true → c = ' ') ∧
    (∀ c ∈ cleanText l, isNewlineChar c = false) ∧
    (cleanText l).Chain' (fun a b => isJsWhitespace a = false ∨ isJsWhitespace b = false) ∧
    (cleanText l).dropWhile isJsWhitespace = cleanText l ∧
    (cleanText l).rdropWhile isJsWhitespace = cleanText l :=
  ⟨cleanText_ws_is_space l, cleanText_no_newline l, cleanText_chain' l,
    cleanText_dropWhile_self l, cleanText_rdropWhile_self l⟩

/-- C7 witness: the no-newline clause instantiated on the cleaned text of
a concrete input containing a newline run, at its space character. -/
theorem c7_witness : isNewlineChar ' ' = false := by
  have h := c7_theorem ['a', '\n', '\n', 'b']
  exact h.2.1 ' ' (by decide)

/-- C9: cleaning is idempotent, so re-chunking the cleaned output with
the same parameters yields an identical chunk sequence. -/
theorem c9_theorem (dt : String) (l : List Char) :
    cleanText (cleanText l) = cleanText l ∧
    preprocessChunks dt (cleanText l) = preprocessChunks dt l := by
  refine ⟨cleanText_idem l, ?_⟩
  rw [preprocessChunks, preprocessChunks, cleanText_idem]

lemma normSq_eq_zero_of_entries :
    ∀ a : List Real, (∀ x ∈ a, x = 0) → normSq a = 0 := by
  intro a
  induction a with
  | nil => intro _; simp [normSq]
  | cons x t ih =>
    intro h
    have ht := ih (fun z hz => h z (List.mem_cons_of_mem x hz))
    simp only [normSq, List.map_cons, List.sum_cons]
    rw [h x (by simp)]
    simp only [normSq] at ht
    rw [ht]
    ring

lemma cosineSimilarity_one_one :
    cosineSimilarity [(1 : Real)] [(1 : Real)] = some 1 := by
  have h1 : normSq [(1 : Real)] = 1 := by simp [normSq]
  have h2 : dotList [(1 : Real)] [(1 : Real)] = 1 := by simp [dotList]
  unfold cosineSimilarity
  rw [h1, h2, Real.sqrt_one]
  norm_num

lemma cosineSimilarity_one_neg :
    cosineSimilarity [(1 : Real)] [(-1 : Real)] = some (-1) := by
  have h1 : normSq [(1 : Real)] = 1 := by simp [normSq]
  have h1' : normSq [(-1 : Real)] = 1 := by simp [normSq]
  have h2 : dotList [(1 : Real)] [(-1 : Real)] = -1 := by simp [dotList]
  unfold cosineSimilarity
  rw [h1, h1', h2, Real.sqrt_one]
  norm_num

lemma bestMatchFold_eq (reqEmb : List Real) (pairs : List (ChunkIn × List Real)) :
    bestMatchFold reqEmb pairs =
      pairs.foldl (bestStep reqEmb) { chunkId := "", score := some 0, text := [] } := rfl

lemma semanticMatchFor_score (reqId : String) (reqEmb : List Real)
    (pairs : List (ChunkIn × List Real)) (rms : List (List String)) :
    (semanticMatchFor reqId reqEmb pairs rms).similarity_score =
      (bestMatchFold reqEmb pairs).score := rfl

/-- C1 counterexample: the cosine-similarity computation on a zero vector
returns NaN (modelled none), not 0: the source divides by
sqrt(0) * sqrt(1) = 0 with no guard. -/
theorem c1_counterexample :
    cosineSimilarity [(0 : Real)] [(1 : Real)] = none ∧
    ¬(cosineSimilarity [(0 : Real)] [(1 : Real)] = some 0) := by
  have h : cosineSimilarity [(0 : Real)] [(1 : Real)] = none :=
    cosineSimilarity_none_left _ (by simp [normSq])
  exact ⟨h, by rw [h]; simp⟩

/-- C1 (amended): on a zero-norm vector the cosine-similarity computation
returns NaN, not 0; best-match selection nevertheless completes, and the
similarity_score of every emitted record is a real number, never NaN,
because the strict comparison against the running score is false for a
NaN similarity, so a NaN is never stored. -/
theorem c1_theorem (a b : List Real) (reqs : List (String × List Real))
    (pairs : List (ChunkIn × List Real)) (rms : List (List String)) :
    ((∀ x ∈ a, x = 0) ∨ (∀ x ∈ b, x = 0) → cosineSimilarity a b = none) ∧
    (∀ m ∈ semanticMatches reqs pairs rms, ∃ x : Real, m.similarity_score = some x) := by
  constructor
  · rintro (h | h)
    · exact cosineSimilarity_none_left b (normSq_eq_zero_of_entries a h)
    · exact cosineSimilarity_none_right a (normSq_eq_zero_of_entries b h)
  · intro m hm
    unfold semanticMatches at hm
    obtain ⟨r, _, rfl⟩ := List.mem_map.mp hm
    rw [semanticMatchFor_score, bestMatchFold_eq]
    exact foldl_best_isSome r.2 pairs _ ⟨0, rfl⟩

/-- C1 witness: the record clause instantiated on a singleton chunk set
whose only embedding is the zero vector. -/
theorem c1_witness :
    ∃ x : Real, (semanticMatchFor "licensing_category" [1]
      [({ id := "doc_chunk_0", text := ['t'] }, [0])] []).similarity_score = some x :=
  (c1_theorem [0] [1] [("licensing_category", [1])]
      [({ id := "doc_chunk_0", text := ['t'] }, [0])] []).2
    (semanticMatchFor "licensing_category" [1]
      [({ id := "doc_chunk_0", text := ['t'] }, [0])] [])
    (by unfold semanticMatches; exact List.mem_singleton.mpr rfl)

/-- C8 counterexample: on a nonempty chunk set whose unique (hence
strictly greatest) similarity is -1, the emitted record names no chunk at
all: the selection threshold is the initial score 0, so the record keeps
the sentinel empty chunk id instead of the best chunk. -/
theorem c8_counterexample :
    cosineSimilarity [(1 : Real)] [(-1 : Real)] = some (-1) ∧
    (bestMatchFold [(1 : Real)] [({ id := "c1", text := ['t'] }, [(-1 : Real)])]).chunkId
      = "" ∧
    ¬((bestMatchFold [(1 : Real)] [({ id := "c1", text := ['t'] }, [(-1 : Real)])]).chunkId
      = "c1") := by
  have hfold : bestMatchFold [(1 : Real)] [({ id := "c1", text := ['t'] }, [(-1 : Real)])] =
      { chunkId := "", score := some 0, text := [] } := by
    rw [bestMatchFold_eq]
    apply foldl_best_no_improve _ _ _ 0 rfl
    intro cj hcj y hy
    rw [List.mem_singleton] at hcj
    subst hcj
    rw [cosineSimilarity_one_neg] at hy
    injection hy with hy
    rw [← hy]
    norm_num
  refine ⟨cosineSimilarity_one_neg, by rw [hfold], by rw [hfold]; decide⟩

/-- C8 (amended): when some chunk attains a strictly positive similarity
x that is the maximum over all chunks, the selection returns the first
chunk (in iteration order) attaining x, with score x and the 200-char
text preview; the computation is a pure function, hence deterministic.
When no similarity strictly exceeds 0 the sentinel empty record is kept
instead (see the counterexample and C10). -/
theorem c8_theorem (reqEmb : List Real) (pairs : List (ChunkIn × List Real)) (i : Nat)
    (c : ChunkIn × List Real) (x : Real)
    (hi : pairs[i]? = some c)
    (hx : cosineSimilarity reqEmb c.2 = some x)
    (hpos : 0 < x)
    (hmax : ∀ cj ∈ pairs, ∀ y, cosineSimilarity reqEmb cj.2 = some y → y ≤ x)
    (hfirst : ∀ j, j < i → ∀ c' y, pairs[j]? = some c' →
      cosineSimilarity reqEmb c'.2 = some y → y < x) :
    bestMatchFold reqEmb pairs =
      { chunkId := c.1.id, score := some x, text := c.1.text.take 200 } := by
  rw [bestMatchFold_eq]
  exact foldl_best_first_max reqEmb pairs i c x _ 0 rfl hpos hi hx hmax hfirst

/-- C8 witness: the theorem instantiated on a singleton chunk set with
similarity 1. -/
theorem c8_witness :
    bestMatchFold [(1 : Real)] [({ id := "c1", text := ['t'] }, [(1 : Real)])] =
      { chunkId := "c1", score := some 1, text := (['t'] : List Char).take 200 } := by
  apply c8_theorem [(1 : Real)] [({ id := "c1", text := ['t'] }, [(1 : Real)])] 0
    ({ id := "c1", text := ['t'] }, [(1 : Real)]) 1
  · rfl
  · exact cosineSimilarity_one_one
  · exact zero_lt_one
  · intro cj hcj y hy
    rw [List.mem_singleton] at hcj
    subst hcj
    rw [cosineSimilarity_one_one] at hy
    injection hy with hy
    rw [← hy]
  · intro j hj
    exact absurd hj (Nat.not_lt_zero j)

/-- C10: when the chunk set is empty or no chunk attains a strictly
positive (non-NaN) similarity, the engine does not fail: the emitted
record keeps the sentinel empty chunk id, score 0, empty text, and status
missing (the lexical boost applies only to partial, never to missing);
and exactly one record is emitted per requirement. -/
theorem c10_theorem :
    (∀ (reqId : String) (reqEmb : List Real) (pairs : List (ChunkIn × List Real))
        (rms : List (List String)),
      (∀ cj ∈ pairs, ∀ y, cosineSimilarity reqEmb cj.2 = some y → y ≤ 0) →
      semanticMatchFor reqId reqEmb pairs rms =
        { requirement_id := reqId, chunk_id := "", similarity_score := some 0,
          matched_text := [], status := Status.missing }) ∧
    (∀ (reqs : List (String × List Real)) (pairs : List (ChunkIn × List Real))
        (rms : List (List String)),
      (semanticMatches reqs pairs rms).length = reqs.length) := by
  constructor
  · intro reqId reqEmb pairs rms hall
    have hfold : bestMatchFold reqEmb pairs =
        { chunkId := "", score := some 0, text := [] } := by
      rw [bestMatchFold_eq]
      exact foldl_best_no_improve reqEmb pairs _ 0 rfl hall
    simp only [semanticMatchFor, hfold, classify_zero]
  · intro reqs pairs rms
    unfold semanticMatches
    simp

/-- C10 witness: the record clause instantiated on the empty chunk set. -/
theorem c10_witness :
    semanticMatchFor "licensing_category" [1] [] [] =
      { requirement_id := "licensing_category", chunk_id := "", similarity_score := some 0,
        matched_text := [], status := Status.missing } :=
  c10_theorem.1 "licensing_category" [1] [] []
    (fun cj hcj => absurd hcj (List.not_mem_nil cj))

end QatarRegScan
